import Mathlib

/-!
# Imperative `CommandStream`: codec, handler registry, queue and `Update`

A shallow embedding of `src/CommandStream.hpp`.

Modelling conventions

* `Id` and `Size` are `uint32_t`; they are natural numbers, reduced modulo
  `2 ^ 32` wherever the source converts into them.  A byte (`char`) is a
  natural number below `256`.
* A buffer reached through a pointer (`void*`, `char*`) is the list of the
  bytes stored from that address on; `p + k` is `List.drop k`.  Reading past
  the end of a buffer is undefined behaviour and is modelled by `none`.
* Two properties of the target that the source leaves to the compiler are
  parameters (`Target`): the byte order and the signedness of plain `char`.
* `sizeof(Id) + sizeof(Size) + command.size` is computed in `size_t`; a
  payload of `command.size` bytes that really is in memory leaves no room for
  that sum to wrap, so it is computed in `Nat`.
* Allocation is assumed to succeed; `delete` is not modelled.  The bytes a
  block holds when `malloc` returns it are a parameter of the function that
  allocates it.
* A handler is a function pointer, kept as a bare address.  Calling it is
  recorded as an `Invocation` (address and payload bytes handed over) in the
  trace returned by `Update`.  Both mutexes are held while handlers run, so a
  handler cannot re-enter the stream (it would block on a non-recursive
  `std::mutex`); the stream state is therefore untouched by the call itself.
* `std::map<Id, HandlerFunction>` is an association list in which a key occurs
  at most once when built through `insert`; `find`, `insert` and `operator[]`
  follow the standard container semantics (insert keeps an existing entry,
  `operator[]` default-inserts a missing key).
-/

namespace Imperative
namespace CommandStream

/-- A `char` of memory. -/
abbrev Byte := Nat

/-- Source: `using Id = uint32_t;` -/
abbrev Id := Nat

/-- Source: `using Size = uint32_t;` -/
abbrev Size := Nat

/-- Number of values of a `uint32_t`. -/
def U32 : Nat := 4294967296

/-- Source: `static const constexpr Size AnySize = (uint64_t)(-1);` the 64-bit
all-ones value converted to the 32-bit `Size`. -/
def AnySize : Size := (18446744073709551616 - 1) % U32

/-- Source: `sizeof(Id)`. -/
def sizeofId : Nat := 4

/-- Source: `sizeof(Size)`. -/
def sizeofSize : Nat := 4

/-- Source: `using Function = void(*)(void*);` the address of a callback. -/
abbrev HandlerFunction.Function := Nat

/-- Source: `struct HandlerFunction`. -/
structure HandlerFunction where
  sizeMin : Size
  sizeMax : Size
  ptr : HandlerFunction.Function
  id : Id
deriving DecidableEq, Repr

/-- Source: `struct Command`; `data` is the buffer the pointer owns. -/
structure Command where
  size : Size
  data : List Byte
  id : Id
deriving DecidableEq, Repr

/-- Source: `using SerializedCommand = char*;` -/
abbrev SerializedCommand := List Byte

/-- Implementation-defined properties of the compilation target. -/
structure Target where
  littleEndian : Bool
  charSigned : Bool
deriving DecidableEq, Repr

/-- The four bytes of a `uint32_t` object as they lie in memory
(what `memcpy(dst, &v, 4)` copies). -/
def objectBytes (t : Target) (v : Nat) : List Byte :=
  if t.littleEndian then
    [v % 256, v / 256 % 256, v / 65536 % 256, v / 16777216 % 256]
  else
    [v / 16777216 % 256, v / 65536 % 256, v / 256 % 256, v % 256]

/-- Conversion of the `char` stored in one byte to `uint32_t`
(the implicit conversion in `command.id = *(cmd);`). -/
def charToU32 (t : Target) (b : Byte) : Nat :=
  if t.charSigned ∧ 128 ≤ b then (b + U32 - 256) % U32 else b % U32

/-- Source: `memcpy(dst, src, n)`: the `n` bytes written to `dst`; undefined
when `src` holds fewer than `n` bytes. -/
def memcpy (src : List Byte) (n : Nat) : Option (List Byte) :=
  if n ≤ src.length then some (src.take n) else none

/-- Source: `DeserializeCommand` (lines 46-57). -/
def DeserializeCommand (t : Target) (cmd : SerializedCommand) : Option Command :=
  match cmd[0]?, cmd[sizeofId]? with
  | some c0, some c4 =>
    let id := charToU32 t c0
    let size := charToU32 t c4
    match memcpy (cmd.drop (sizeofId + sizeofSize)) size with
    | some data => some { size := size, data := data, id := id }
    | none => none
  | _, _ => none

/-- Source: `SerializeCommand` (lines 59-70). -/
def SerializeCommand (t : Target) (command : Command) : Option SerializedCommand :=
  match memcpy command.data command.size with
  | some payload => some (objectBytes t command.id ++ objectBytes t command.size ++ payload)
  | none => none

/-- Source: `CreateCommand(Id id, Size size, void* data)` (lines 105-115). -/
def CreateCommand (id : Id) (size : Size) (data : List Byte) : Option Command :=
  match memcpy data size with
  | some copy => some { size := size, data := copy, id := id }
  | none => none

/-- Source: `std::map<Id, HandlerFunction>`. -/
abbrev HandlerMap := List (Id × HandlerFunction)

/-- Source: `std::map::find`; `none` is `end()`. -/
def HandlerMap.find : HandlerMap → Id → Option HandlerFunction
  | [], _ => none
  | (k, v) :: rest, key => if k = key then some v else HandlerMap.find rest key

/-- Source: `std::map::insert`: no effect when the key is present. -/
def HandlerMap.insert (m : HandlerMap) (key : Id) (v : HandlerFunction) : HandlerMap :=
  match m.find key with
  | some _ => m
  | none => m ++ [(key, v)]

/-- A value-initialised `HandlerFunction`, as `operator[]` creates it. -/
def HandlerFunction.zero : HandlerFunction :=
  { sizeMin := 0, sizeMax := 0, ptr := 0, id := 0 }

/-- Source: `std::map::operator[]`: the mapped value and the map afterwards
(a missing key is inserted with a value-initialised entry). -/
def HandlerMap.index (m : HandlerMap) (key : Id) : HandlerFunction × HandlerMap :=
  match m.find key with
  | some v => (v, m)
  | none => (HandlerFunction.zero, m ++ [(key, HandlerFunction.zero)])

/-- One call `function.ptr(command.data)`. -/
structure Invocation where
  ptr : HandlerFunction.Function
  data : List Byte
deriving DecidableEq, Repr

end CommandStream

/-- Source: `class CommandStream`, its two data members. -/
structure CommandStream where
  m_functionHandlers : CommandStream.HandlerMap
  m_commands : List CommandStream.Command
deriving DecidableEq, Repr

namespace CommandStream

/-- Source: `RegisterHandler(HandlerFunction func)` (lines 93-97). -/
def RegisterHandler (s : CommandStream) (func : HandlerFunction) : CommandStream :=
  { s with m_functionHandlers := s.m_functionHandlers.insert func.id func }

/-- Source: `RegisterHandler(Id, Function, Size sizeMin, Size sizeMax)` (lines 82-91). -/
def RegisterHandlerRange (s : CommandStream) (id : Id) (functionPtr : HandlerFunction.Function)
    (sizeMin sizeMax : Size) : CommandStream :=
  RegisterHandler s { sizeMin := sizeMin, sizeMax := sizeMax, ptr := functionPtr, id := id }

/-- Source: `RegisterHandler(Id, Function, Size size)` (lines 77-80). -/
def RegisterHandlerSize (s : CommandStream) (id : Id) (functionPtr : HandlerFunction.Function)
    (size : Size) : CommandStream :=
  RegisterHandlerRange s id functionPtr size size

/-- Source: `SendCommand(Command command)` (lines 99-103). -/
def SendCommand (s : CommandStream) (command : Command) : CommandStream :=
  { s with m_commands := s.m_commands ++ [command] }

/-- Source: `SendCommand(Id id, Size size, void* data)` (lines 117-120). -/
def SendCommandData (s : CommandStream) (id : Id) (size : Size) (data : List Byte) :
    Option CommandStream :=
  match CreateCommand id size data with
  | some command => some (SendCommand s command)
  | none => none

/-- Source: `ProcessSerializedCommand` (lines 72-75). -/
def ProcessSerializedCommand (t : Target) (s : CommandStream) (command : SerializedCommand) :
    Option CommandStream :=
  match DeserializeCommand t command with
  | some c => some (SendCommand s c)
  | none => none

/-- Source: the body of the `for` loop of `Update` (lines 166-174) for one
command: the registry afterwards and the calls made. -/
def updateBody (handlers : HandlerMap) (command : Command) : HandlerMap × List Invocation :=
  if (handlers.find command.id).isSome then
    let r := handlers.index command.id
    let function := r.1
    if function.sizeMin = AnySize ∨
        ¬ (function.sizeMin > command.size ∨ function.sizeMax < command.size) then
      (r.2, [{ ptr := function.ptr, data := command.data }])
    else
      (r.2, [])
  else
    (handlers, [])

/-- Source: `for (auto command : m_commands)` in `Update` (line 165): the
registry after the loop and the calls made, in order. -/
def updateLoop : HandlerMap → List Command → HandlerMap × List Invocation
  | handlers, [] => (handlers, [])
  | handlers, command :: rest =>
    let r := updateBody handlers command
    let r' := updateLoop r.1 rest
    (r'.1, r.2 ++ r'.2)

/-- Source: `Update` (lines 160-177): the stream afterwards and the handler
calls made, in order. -/
def Update (s : CommandStream) : CommandStream × List Invocation :=
  let r := updateLoop s.m_functionHandlers s.m_commands
  ({ m_functionHandlers := r.1, m_commands := [] }, r.2)

/-! ### Definitions that follow the words of the specification -/

/-- Spec 4.3 step 2c: a handler entry accepts a command when
`sizeMin == AnySize` or `sizeMin <= command.size <= sizeMax`. -/
def specAccepts (h : HandlerFunction) (c : Command) : Prop :=
  h.sizeMin = AnySize ∨ (h.sizeMin ≤ c.size ∧ c.size ≤ h.sizeMax)

instance (h : HandlerFunction) (c : Command) : Decidable (specAccepts h c) := by
  unfold specAccepts; infer_instance

/-- Spec 4.3 step 2: the call a command leads to, if any: the callback of the
entry registered under its id, on the command's own payload, when that entry
accepts the command. -/
def specDispatch (handlers : HandlerMap) (c : Command) : Option Invocation :=
  match handlers.find c.id with
  | some h => if specAccepts h c then some { ptr := h.ptr, data := c.data } else none
  | none => none

/-- Spec 4.4: the 32-bit integer stored in native byte order in the four bytes
that start at offset `off` of a buffer. -/
def specU32At (t : Target) (buf : List Byte) (off : Nat) : Nat :=
  let b0 := buf.getD off 0
  let b1 := buf.getD (off + 1) 0
  let b2 := buf.getD (off + 2) 0
  let b3 := buf.getD (off + 3) 0
  if t.littleEndian then b0 + 256 * b1 + 65536 * b2 + 16777216 * b3
  else b3 + 256 * b2 + 65536 * b1 + 16777216 * b0

/-- One atomic step of a run of the stream: a producer's `SendCommand` or the
consumer's `Update`. -/
inductive Step where
  | send (c : Command)
  | update
deriving DecidableEq, Repr

/-- Effect of one step on the stream and on the calls made so far. -/
def step (st : CommandStream × List Invocation) : Step → CommandStream × List Invocation
  | Step.send c => (SendCommand st.1 c, st.2)
  | Step.update => ((Update st.1).1, st.2 ++ (Update st.1).2)

/-- A run: the steps taken one after the other, starting with no call made. -/
def run (s : CommandStream) (steps : List Step) : CommandStream × List Invocation :=
  steps.foldl step (s, [])

/-- The commands enqueued by a sequence of steps, in order. -/
def sent : List Step → List Command
  | [] => []
  | Step.send c :: rest => c :: sent rest
  | Step.update :: rest => sent rest

/-- Number of commands of a list that the registry accepts. -/
def acceptedCount (handlers : HandlerMap) (cs : List Command) : Nat :=
  (cs.filter (fun c => (specDispatch handlers c).isSome)).length

/-- Source: `template <typename T> CreateCommand(Id id, T& data)` (lines
122-133).  `sizeofT` is `sizeof(T)`, `block` the `sizeof(T)` bytes held by the block
that `malloc(sizeof(T))` returned, and `_data` the bytes of the value.  Line 130,
`*((T*)data) = data;`, converts the value itself to a pointer and stores
through that pointer: nothing is stored through `command.data`, so the payload
is the block as `malloc` left it.  `storeOk` tells whether the address the
value converts to is writable; the store is undefined otherwise. -/
def CreateCommandTyped (id : Id) (sizeofT : Nat) (_data : List Byte) (block : List Byte)
    (storeOk : Bool) : Option Command :=
  if storeOk then some { size := sizeofT % U32, data := block, id := id }
  else none

/-- One call of `RegisterHandler`, through any of its three overloads. -/
inductive RegisterCall where
  | size (id : Id) (functionPtr : HandlerFunction.Function) (size : Size)
  | range (id : Id) (functionPtr : HandlerFunction.Function) (sizeMin sizeMax : Size)
  | entry (func : HandlerFunction)
deriving DecidableEq, Repr

/-- Effect of one `RegisterHandler` call on the stream. -/
def RegisterCall.apply (s : CommandStream) : RegisterCall → CommandStream
  | RegisterCall.size id functionPtr sz => RegisterHandlerSize s id functionPtr sz
  | RegisterCall.range id functionPtr sizeMin sizeMax =>
    RegisterHandlerRange s id functionPtr sizeMin sizeMax
  | RegisterCall.entry func => RegisterHandler s func

/-- Spec 3, invariants: a handler entry with `sizeMin != AnySize` satisfies
`sizeMin <= sizeMax`. -/
def specRangeInvariant (h : HandlerFunction) : Prop :=
  h.sizeMin = AnySize ∨ h.sizeMin ≤ h.sizeMax

instance (h : HandlerFunction) : Decidable (specRangeInvariant h) := by
  unfold specRangeInvariant; infer_instance

/-- The size range passed to a `RegisterHandler` call satisfies
`specRangeInvariant`; the single-size overload passes `size, size`. -/
def RegisterCall.rangeOk : RegisterCall → Prop
  | RegisterCall.size _ _ _ => True
  | RegisterCall.range _ _ sizeMin sizeMax => sizeMin = AnySize ∨ sizeMin ≤ sizeMax
  | RegisterCall.entry func => specRangeInvariant func

instance (call : RegisterCall) : Decidable call.rangeOk := by
  cases call <;> unfold RegisterCall.rangeOk <;> infer_instance

/-- Spec 8, concrete scenario: on an empty stream register id 1 for the single
size 8 with callback `f`, serialize `Command{id=1, size=8, data=[0..7]}`,
hand the buffer to `ProcessSerializedCommand`, call `Update` once.  The result
is the stream afterwards and the calls made. -/
def scenario (t : Target) (f : HandlerFunction.Function) :
    Option (CommandStream × List Invocation) :=
  ((SerializeCommand t { size := 8, data := [0, 1, 2, 3, 4, 5, 6, 7], id := 1 }).bind
    (ProcessSerializedCommand t
      (RegisterHandlerSize { m_functionHandlers := [], m_commands := [] } 1 f 8))).map Update

/-! ### Auxiliary facts about the registry and the dispatch loop -/

theorem HandlerMap.index_of_find {m : HandlerMap} {key : Id} {v : HandlerFunction}
    (h : m.find key = some v) : m.index key = (v, m) := by
  simp [HandlerMap.index, h]

theorem updateBody_eq (handlers : HandlerMap) (c : Command) :
    updateBody handlers c = (handlers, (specDispatch handlers c).toList) := by
  unfold updateBody specDispatch
  cases hf : handlers.find c.id with
  | none => simp
  | some h =>
    have hacc : (h.sizeMin = AnySize ∨ ¬ (h.sizeMin > c.size ∨ h.sizeMax < c.size)) ↔
        specAccepts h c := by
      unfold specAccepts
      constructor
      · rintro (h1 | h1)
        · exact Or.inl h1
        · exact Or.inr ⟨Nat.le_of_not_lt (fun a => h1 (Or.inl a)),
            Nat.le_of_not_lt (fun a => h1 (Or.inr a))⟩
      · rintro (h1 | ⟨h1, h2⟩)
        · exact Or.inl h1
        · exact Or.inr (fun a => a.elim (Nat.not_lt.mpr h1) (Nat.not_lt.mpr h2))
    simp only [Option.isSome_some, if_true, HandlerMap.index_of_find hf, hacc]
    by_cases ha : specAccepts h c <;> simp [ha]

theorem updateLoop_eq (handlers : HandlerMap) (cs : List Command) :
    updateLoop handlers cs = (handlers, cs.filterMap (specDispatch handlers)) := by
  induction cs with
  | nil => rfl
  | cons c rest ih =>
    simp only [updateLoop, updateBody_eq, ih, List.filterMap_cons]
    cases specDispatch handlers c <;> simp

theorem Update_eq (s : CommandStream) :
    Update s = ({ m_functionHandlers := s.m_functionHandlers, m_commands := [] },
      s.m_commands.filterMap (specDispatch s.m_functionHandlers)) := by
  simp [Update, updateLoop_eq]

theorem foldl_SendCommand (cs : List Command) (s : CommandStream) :
    cs.foldl SendCommand s =
      { m_functionHandlers := s.m_functionHandlers, m_commands := s.m_commands ++ cs } := by
  induction cs generalizing s with
  | nil => simp
  | cons c rest ih => simp [List.foldl_cons, ih, SendCommand]

theorem round_trip_size_256 (t : Target) (d : List Byte) (hd : d.length = 256) :
    (SerializeCommand t { size := 256, data := d, id := 0 }).bind (DeserializeCommand t)
      = some { size := 0, data := [], id := 0 } := by
  have h1 : memcpy d 256 = some d := by
    unfold memcpy
    rw [if_pos (by omega), ← hd, List.take_length]
  have hs : SerializeCommand t { size := 256, data := d, id := 0 } =
      some (objectBytes t 0 ++ objectBytes t 256 ++ d) := by
    simp only [SerializeCommand, h1]
  rw [hs]
  rcases t with ⟨_ | _, _ | _⟩ <;>
  simp [DeserializeCommand, memcpy, objectBytes, charToU32, U32, sizeofId, sizeofSize]

theorem acceptedCount_eq (handlers : HandlerMap) (cs : List Command) :
    acceptedCount handlers cs = (cs.filterMap (specDispatch handlers)).length := by
  unfold acceptedCount
  induction cs with
  | nil => rfl
  | cons c rest ih =>
    rw [List.filterMap_cons, List.filter_cons]
    cases hd : specDispatch handlers c with
    | none => simpa using ih
    | some v => simpa using ih

theorem acceptedCount_append (handlers : HandlerMap) (xs ys : List Command) :
    acceptedCount handlers (xs ++ ys) = acceptedCount handlers xs + acceptedCount handlers ys := by
  simp [acceptedCount]

theorem acceptedCount_all (handlers : HandlerMap) (cs : List Command)
    (h : ∀ c ∈ cs, (specDispatch handlers c).isSome = true) :
    acceptedCount handlers cs = cs.length := by
  unfold acceptedCount
  rw [List.filter_eq_self.mpr h]

theorem acceptedCount_perm (handlers : HandlerMap) {xs ys : List Command} (h : xs.Perm ys) :
    acceptedCount handlers xs = acceptedCount handlers ys := by
  unfold acceptedCount
  exact (h.filter _).length_eq

theorem sent_append (xs ys : List Step) : sent (xs ++ ys) = sent xs ++ sent ys := by
  induction xs with
  | nil => rfl
  | cons x rest ih => cases x <;> simp [sent, ih]

theorem length_flatten_const (M : Nat) (ps : List (List Command))
    (h : ∀ p ∈ ps, p.length = M) : ps.flatten.length = ps.length * M := by
  induction ps with
  | nil => simp
  | cons p rest ih =>
    have hp : p.length = M := h p (List.mem_cons_self _ _)
    have hr : rest.flatten.length = rest.length * M :=
      ih (fun q hq => h q (List.mem_cons_of_mem _ hq))
    simp only [List.flatten_cons, List.length_append, List.length_cons, hp, hr]
    rw [Nat.add_mul, Nat.one_mul, Nat.add_comm]

/-- Invariant of a run: the registry is fixed, and the calls made so far plus
the accepted commands still queued account for every accepted command that
was queued at the start or enqueued since. -/
theorem foldl_step_invariant (steps : List Step) (s : CommandStream) (tr : List Invocation) :
    (steps.foldl step (s, tr)).1.m_functionHandlers = s.m_functionHandlers ∧
    (steps.foldl step (s, tr)).2.length +
        acceptedCount s.m_functionHandlers (steps.foldl step (s, tr)).1.m_commands =
      tr.length + acceptedCount s.m_functionHandlers s.m_commands +
        acceptedCount s.m_functionHandlers (sent steps) := by
  induction steps generalizing s tr with
  | nil => simp [sent, acceptedCount]
  | cons x rest ih =>
    cases x with
    | send c =>
      have h := ih (SendCommand s c) tr
      simp only [List.foldl_cons, step, sent]
      have hh : (SendCommand s c).m_functionHandlers = s.m_functionHandlers := rfl
      have hc : (SendCommand s c).m_commands = s.m_commands ++ [c] := rfl
      rw [hh, hc] at h
      refine ⟨h.1, ?_⟩
      have hs : acceptedCount s.m_functionHandlers (c :: sent rest) =
          acceptedCount s.m_functionHandlers [c] +
            acceptedCount s.m_functionHandlers (sent rest) := by
        rw [← List.singleton_append, acceptedCount_append]
      rw [h.2, acceptedCount_append, hs]
      omega
    | update =>
      have h := ih (Update s).1 (tr ++ (Update s).2)
      simp only [List.foldl_cons, step, sent]
      have hu : (Update s).1.m_functionHandlers = s.m_functionHandlers := by rw [Update_eq]
      have hq : (Update s).1.m_commands = [] := by rw [Update_eq]
      have hl : (Update s).2.length = acceptedCount s.m_functionHandlers s.m_commands := by
        rw [Update_eq, acceptedCount_eq]
      rw [hu, hq] at h
      refine ⟨h.1, ?_⟩
      rw [h.2, List.length_append, hl]
      simp [acceptedCount]

theorem memcpy_exact (d : List Byte) (n : Nat) (h : d.length = n) : memcpy d n = some d := by
  unfold memcpy
  rw [if_pos (Nat.le_of_eq h.symm), ← h, List.take_length]

theorem objectBytes_length (t : Target) (v : Nat) : (objectBytes t v).length = 4 := by
  unfold objectBytes
  split <;> rfl

theorem objectBytes_lt (t : Target) (v : Nat) : ∀ b ∈ objectBytes t v, b < 256 := by
  intro b hb
  unfold objectBytes at hb
  split at hb <;> simp only [List.mem_cons, List.mem_singleton, List.not_mem_nil, or_false] at hb <;>
    rcases hb with rfl | rfl | rfl | rfl <;> exact Nat.mod_lt _ (by decide)

theorem specU32At_objectBytes (t : Target) (v w : Nat) (rest : List Byte) (hv : v < 4294967296)
    (hw : w < 4294967296) :
    specU32At t (objectBytes t v ++ objectBytes t w ++ rest) 0 = v ∧
    specU32At t (objectBytes t v ++ objectBytes t w ++ rest) 4 = w := by
  unfold specU32At objectBytes
  cases t.littleEndian <;> simp <;> omega

theorem HandlerMap.find_append (m n : HandlerMap) (key : Id) :
    HandlerMap.find (m ++ n) key =
      match HandlerMap.find m key with
      | some v => some v
      | none => HandlerMap.find n key := by
  induction m with
  | nil => rfl
  | cons e rest ih =>
    obtain ⟨k, v⟩ := e
    by_cases hk : k = key
    · simp [HandlerMap.find, hk]
    · have h1 : HandlerMap.find ((k, v) :: (rest ++ n)) key = HandlerMap.find (rest ++ n) key := by
        simp only [HandlerMap.find, if_neg hk]
      have h2 : HandlerMap.find ((k, v) :: rest) key = HandlerMap.find rest key := by
        simp only [HandlerMap.find, if_neg hk]
      rw [List.cons_append, h1, h2, ih]

theorem HandlerMap.find_insert_self {m : HandlerMap} {key : Id} (v : HandlerFunction)
    (h : m.find key = none) : (m.insert key v).find key = some v := by
  simp [HandlerMap.insert, h, HandlerMap.find_append, HandlerMap.find]

theorem HandlerMap.insert_of_find {m : HandlerMap} {key : Id} {first : HandlerFunction}
    (v : HandlerFunction) (h : m.find key = some first) : m.insert key v = m := by
  simp [HandlerMap.insert, h]

theorem HandlerMap.find_insert_ne (m : HandlerMap) {key k : Id} (v : HandlerFunction)
    (hk : k ≠ key) : (m.insert key v).find k = m.find k := by
  unfold HandlerMap.insert
  cases hf : m.find key with
  | some w => rfl
  | none =>
    simp only [HandlerMap.find_append, HandlerMap.find, if_neg (Ne.symm hk)]
    cases m.find k <;> rfl

theorem HandlerMap.mem_insert {m : HandlerMap} {key : Id} {v : HandlerFunction}
    {e : Id × HandlerFunction} (he : e ∈ m.insert key v) : e ∈ m ∨ e = (key, v) := by
  unfold HandlerMap.insert at he
  cases hf : m.find key with
  | some w => rw [hf] at he; exact Or.inl he
  | none =>
    rw [hf] at he
    rcases List.mem_append.mp he with h1 | h1
    · exact Or.inl h1
    · exact Or.inr (List.mem_singleton.mp h1)

theorem RegisterHandler_of_find {s : CommandStream} {func first : HandlerFunction}
    (h : s.m_functionHandlers.find func.id = some first) : RegisterHandler s func = s := by
  cases s
  simp only [RegisterHandler, HandlerMap.insert_of_find func h]

theorem Update_split (handlers : HandlerMap) (pre post : List Command) (c : Command) :
    (Update { m_functionHandlers := handlers, m_commands := pre ++ c :: post }).2 =
      (Update { m_functionHandlers := handlers, m_commands := pre }).2 ++
        (specDispatch handlers c).toList ++
        (Update { m_functionHandlers := handlers, m_commands := post }).2 := by
  simp only [Update_eq, List.filterMap_append, List.filterMap_cons, List.append_assoc]
  cases specDispatch handlers c <;> rfl

theorem foldl_apply_entries (calls : List RegisterCall) (s : CommandStream)
    (hcalls : ∀ call ∈ calls, call.rangeOk)
    (hs : ∀ e ∈ s.m_functionHandlers, specRangeInvariant e.2) :
    ∀ e ∈ (calls.foldl RegisterCall.apply s).m_functionHandlers, specRangeInvariant e.2 := by
  induction calls generalizing s with
  | nil => exact hs
  | cons call rest ih =>
    rw [List.foldl_cons]
    apply ih _ (fun c hc => hcalls c (List.mem_cons_of_mem _ hc))
    have hcall : call.rangeOk := hcalls call (List.mem_cons_self _ _)
    intro e he
    cases call with
    | size id functionPtr sz =>
      rcases HandlerMap.mem_insert he with h1 | h1
      · exact hs e h1
      · rw [h1]; exact Or.inr (Nat.le_refl _)
    | range id functionPtr sizeMin sizeMax =>
      rcases HandlerMap.mem_insert he with h1 | h1
      · exact hs e h1
      · rw [h1]; exact hcall
    | entry func =>
      rcases HandlerMap.mem_insert he with h1 | h1
      · exact hs e h1
      · rw [h1]; exact hcall

theorem objectBytes_small (charSigned : Bool) (v : Nat) (hv : v < 128) :
    objectBytes { littleEndian := true, charSigned := charSigned } v = [v, 0, 0, 0] := by
  have e1 : v % 256 = v := Nat.mod_eq_of_lt (by omega)
  have e2 : v / 256 % 256 = 0 := by omega
  have e3 : v / 65536 % 256 = 0 := by omega
  have e4 : v / 16777216 % 256 = 0 := by omega
  simp only [objectBytes, if_true, e1, e2, e3, e4]

theorem charToU32_small (t : Target) (b : Nat) (hb : b < 128) : charToU32 t b = b := by
  unfold charToU32
  rw [if_neg (fun h => absurd h.2 (Nat.not_le.mpr hb))]
  exact Nat.mod_eq_of_lt (Nat.lt_trans hb (by decide))

/-! ### The claims -/

/-- C1 (fails on the code): the round trip at `Command{id = 256, size = 0}`.
On every target `SerializeCommand` succeeds and `DeserializeCommand` of its
result returns a command whose id is `0`, not `256`; likewise a command of id
`0` with a payload of `256` bytes comes back with size `0` and an empty
payload. -/
theorem round_trip_fails_at_256 (t : Target) :
    (SerializeCommand t { size := 0, data := [], id := 256 }).bind (DeserializeCommand t)
        = some { size := 0, data := [], id := 0 } ∧
      (SerializeCommand t { size := 256, data := List.replicate 256 7, id := 0 }).bind
          (DeserializeCommand t)
        = some { size := 0, data := [], id := 0 } := by
  refine ⟨?_, round_trip_size_256 t _ (List.length_replicate 256 7)⟩
  rcases t with ⟨_ | _, _ | _⟩ <;> rfl

/-- C2: size-range matching.  In `Update`, a queued command (at any place of
the queue, under any registry) contributes exactly one call, to the callback
registered under its id and with its own payload, when an entry is registered
under its id and `sizeMin == AnySize` or `sizeMin <= size <= sizeMax`;
otherwise it contributes no call.  In particular an entry with `sizeMin = 4`,
`sizeMax = 8` is called for sizes 4, 6 and 8 and not for sizes 3 and 9. -/
theorem Update_size_range_matching :
    (∀ (s : CommandStream) (pre post : List Command) (c : Command),
      s.m_commands = pre ++ c :: post →
      (Update s).2 =
        (Update { s with m_commands := pre }).2 ++
        (match s.m_functionHandlers.find c.id with
          | some h =>
            if h.sizeMin = AnySize ∨ (h.sizeMin ≤ c.size ∧ c.size ≤ h.sizeMax) then
              [({ ptr := h.ptr, data := c.data } : Invocation)]
            else []
          | none => []) ++
        (Update { s with m_commands := post }).2) ∧
    (∀ (handlers : HandlerMap) (h : HandlerFunction) (id : Id) (data : List Byte) (n : Size),
      handlers.find id = some h → h.sizeMin = 4 → h.sizeMax = 8 →
      ((n = 4 ∨ n = 6 ∨ n = 8) →
        (Update { m_functionHandlers := handlers,
                  m_commands := [{ size := n, data := data, id := id }] }).2
          = [{ ptr := h.ptr, data := data }]) ∧
      ((n = 3 ∨ n = 9) →
        (Update { m_functionHandlers := handlers,
                  m_commands := [{ size := n, data := data, id := id }] }).2 = [])) := by
  constructor
  · intro s pre post c hq
    simp only [Update_eq, hq, List.filterMap_append, List.filterMap_cons, List.append_assoc]
    congr 1
    unfold specDispatch specAccepts
    cases s.m_functionHandlers.find c.id with
    | none => rfl
    | some h =>
      by_cases ha : h.sizeMin = AnySize ∨ (h.sizeMin ≤ c.size ∧ c.size ≤ h.sizeMax)
      · simp only [if_pos ha]; rfl
      · simp only [if_neg ha]; rfl
  · intro handlers h id data n hf hmin hmax
    have h4 : (4 : Nat) ≠ AnySize := by decide
    constructor
    · intro hn
      have ha : specAccepts h { size := n, data := data, id := id } := by
        unfold specAccepts
        rw [hmin, hmax]
        rcases hn with rfl | rfl | rfl <;>
          exact Or.inr ⟨by simp, by simp⟩
      simp [Update_eq, specDispatch, hf, ha]
    · intro hn
      have ha : ¬ specAccepts h { size := n, data := data, id := id } := by
        unfold specAccepts
        rw [hmin, hmax]
        rintro (h1 | ⟨h1, h2⟩)
        · exact h4 h1
        · rcases hn with rfl | rfl
          · exact absurd h1 (by show ¬ (4 : Nat) ≤ 3; decide)
          · exact absurd h2 (by show ¬ (9 : Nat) ≤ 8; decide)
      simp [Update_eq, specDispatch, hf, ha]

/-- Witness for C2: a registry with one entry for id 1 (sizes 4 to 8) and a
queue of three commands of id 1 with sizes 3, 6 and 9. -/
theorem Update_size_range_matching_witness :
    (Update { m_functionHandlers := [(1, { sizeMin := 4, sizeMax := 8, ptr := 7, id := 1 })],
              m_commands := [{ size := 3, data := [1, 2, 3], id := 1 },
                             { size := 6, data := [1, 2, 3, 4, 5, 6], id := 1 },
                             { size := 9, data := [1, 2, 3, 4, 5, 6, 7, 8, 9], id := 1 }] }).2
        = [] ++ [{ ptr := 7, data := [1, 2, 3, 4, 5, 6] }] ++ [] ∧
      (Update { m_functionHandlers := [(1, { sizeMin := 4, sizeMax := 8, ptr := 7, id := 1 })],
                m_commands := [{ size := 8, data := [1, 2, 3, 4, 5, 6, 7, 8], id := 1 }] }).2
        = [{ ptr := 7, data := [1, 2, 3, 4, 5, 6, 7, 8] }] :=
  ⟨Update_size_range_matching.1
      { m_functionHandlers := [(1, { sizeMin := 4, sizeMax := 8, ptr := 7, id := 1 })],
        m_commands := [{ size := 3, data := [1, 2, 3], id := 1 },
                       { size := 6, data := [1, 2, 3, 4, 5, 6], id := 1 },
                       { size := 9, data := [1, 2, 3, 4, 5, 6, 7, 8, 9], id := 1 }] }
      [{ size := 3, data := [1, 2, 3], id := 1 }]
      [{ size := 9, data := [1, 2, 3, 4, 5, 6, 7, 8, 9], id := 1 }]
      { size := 6, data := [1, 2, 3, 4, 5, 6], id := 1 } rfl,
   (Update_size_range_matching.2
      [(1, { sizeMin := 4, sizeMax := 8, ptr := 7, id := 1 })]
      { sizeMin := 4, sizeMax := 8, ptr := 7, id := 1 } 1 [1, 2, 3, 4, 5, 6, 7, 8] 8
      rfl rfl rfl).1 (Or.inr (Or.inr rfl))⟩

/-- C3: FIFO delivery.  After the commands `cs` are enqueued with
`SendCommand` in that order, the calls made by one `Update` are exactly the
accepted commands of the queue (those already queued, then `cs`), in queue
order, each call going to the callback registered for the command's id with
that command's payload.  So `A`, `B`, `C` enqueued in that order on an empty
queue and all accepted are handled in the order `A`, `B`, `C`. -/
theorem Update_fifo_delivery :
    (∀ (s : CommandStream) (cs : List Command),
      (cs.foldl SendCommand s).m_commands = s.m_commands ++ cs ∧
      (Update (cs.foldl SendCommand s)).2 =
        (s.m_commands ++ cs).filterMap (fun c =>
          match s.m_functionHandlers.find c.id with
          | some h =>
            if h.sizeMin = AnySize ∨ (h.sizeMin ≤ c.size ∧ c.size ≤ h.sizeMax) then
              some { ptr := h.ptr, data := c.data }
            else none
          | none => none)) ∧
    (∀ (handlers : HandlerMap) (A B C : Command) (hA hB hC : HandlerFunction),
      handlers.find A.id = some hA → handlers.find B.id = some hB →
      handlers.find C.id = some hC →
      specAccepts hA A → specAccepts hB B → specAccepts hC C →
      (Update (SendCommand (SendCommand (SendCommand
          { m_functionHandlers := handlers, m_commands := [] } A) B) C)).2
        = [{ ptr := hA.ptr, data := A.data }, { ptr := hB.ptr, data := B.data },
           { ptr := hC.ptr, data := C.data }]) := by
  constructor
  · intro s cs
    refine ⟨by rw [foldl_SendCommand], ?_⟩
    rw [Update_eq, foldl_SendCommand]
    rfl
  · intro handlers A B C hA hB hC fA fB fC aA aB aC
    simp [Update_eq, SendCommand, specDispatch, fA, fB, fC, aA, aB, aC]

/-- Witness for C3: three commands for three different handlers. -/
theorem Update_fifo_delivery_witness :
    (Update (SendCommand (SendCommand (SendCommand
        { m_functionHandlers := [(1, { sizeMin := 0, sizeMax := 4, ptr := 11, id := 1 }),
                                 (2, { sizeMin := AnySize, sizeMax := 0, ptr := 12, id := 2 }),
                                 (3, { sizeMin := 2, sizeMax := 2, ptr := 13, id := 3 })],
          m_commands := [] }
        { size := 2, data := [5, 6], id := 3 }) { size := 1, data := [9], id := 1 })
        { size := 0, data := [], id := 2 })).2
      = [{ ptr := 13, data := [5, 6] }, { ptr := 11, data := [9] }, { ptr := 12, data := [] }] :=
  Update_fifo_delivery.2
    [(1, { sizeMin := 0, sizeMax := 4, ptr := 11, id := 1 }),
     (2, { sizeMin := AnySize, sizeMax := 0, ptr := 12, id := 2 }),
     (3, { sizeMin := 2, sizeMax := 2, ptr := 13, id := 3 })]
    { size := 2, data := [5, 6], id := 3 } { size := 1, data := [9], id := 1 }
    { size := 0, data := [], id := 2 }
    { sizeMin := 2, sizeMax := 2, ptr := 13, id := 3 }
    { sizeMin := 0, sizeMax := 4, ptr := 11, id := 1 }
    { sizeMin := AnySize, sizeMax := 0, ptr := 12, id := 2 }
    rfl rfl rfl (by decide) (by decide) (by decide)

/-- C4: no lost and no duplicated command.  With `SendCommand` and `Update`
taken as atomic steps, after any finite sequence of steps on a fixed registry
the number of calls made so far plus the number of accepted commands still
queued equals the number of accepted commands queued at the start or enqueued
since.  Hence when `N` producers enqueue `M` accepted commands each, in any
interleaving with `Update` steps, on a stream whose queue starts empty, an
`Update` after the last enqueue brings the number of calls to exactly
`N * M`. -/
theorem no_lost_no_duplicated_command :
    (∀ (s : CommandStream) (steps : List Step),
      (run s steps).1.m_functionHandlers = s.m_functionHandlers ∧
      (run s steps).2.length + acceptedCount s.m_functionHandlers (run s steps).1.m_commands =
        acceptedCount s.m_functionHandlers s.m_commands +
          acceptedCount s.m_functionHandlers (sent steps)) ∧
    (∀ (handlers : HandlerMap) (producers : List (List Command)) (N M : Nat)
        (steps : List Step),
      producers.length = N → (∀ p ∈ producers, p.length = M) →
      (∀ p ∈ producers, ∀ c ∈ p, ∃ h, handlers.find c.id = some h ∧
        (h.sizeMin = AnySize ∨ (h.sizeMin ≤ c.size ∧ c.size ≤ h.sizeMax))) →
      (sent steps).Perm producers.flatten →
      (run { m_functionHandlers := handlers, m_commands := [] }
        (steps ++ [Step.update])).2.length = N * M) := by
  constructor
  · intro s steps
    have h := foldl_step_invariant steps s []
    refine ⟨h.1, ?_⟩
    have h2 := h.2
    simp only [List.length_nil, Nat.zero_add] at h2
    exact h2
  · intro handlers producers N M steps hN hM hacc hperm
    have h := (foldl_step_invariant (steps ++ [Step.update])
      { m_functionHandlers := handlers, m_commands := [] } []).2
    have hq : (List.foldl step (({ m_functionHandlers := handlers, m_commands := [] } :
        CommandStream), []) (steps ++ [Step.update])).1.m_commands = [] := by
      rw [List.foldl_append]
      simp [step, Update_eq]
    have hall : ∀ c ∈ producers.flatten, (specDispatch handlers c).isSome = true := by
      intro c hc
      obtain ⟨p, hp, hcp⟩ := List.mem_flatten.mp hc
      obtain ⟨hh, hf, ha⟩ := hacc p hp c hcp
      have ha2 : specAccepts hh c := ha
      simp [specDispatch, hf, ha2]
    rw [hq] at h
    simp only [sent_append, sent, List.append_nil, acceptedCount_perm handlers hperm,
      acceptedCount_all handlers _ hall, length_flatten_const M producers hM, hN] at h
    simpa [run, acceptedCount] using h

/-- Witness for C4: two producers with two commands each (ids 1 and 2, both
registered), interleaved with two `Update` steps before the final one. -/
theorem no_lost_no_duplicated_command_witness :
    (run { m_functionHandlers := [(1, { sizeMin := AnySize, sizeMax := 0, ptr := 11, id := 1 }),
                                  (2, { sizeMin := 1, sizeMax := 2, ptr := 12, id := 2 })],
           m_commands := [] }
      ([Step.send { size := 0, data := [], id := 1 },
        Step.send { size := 1, data := [4], id := 2 },
        Step.update,
        Step.send { size := 2, data := [5, 6], id := 2 },
        Step.update,
        Step.send { size := 3, data := [7, 8, 9], id := 1 }] ++ [Step.update])).2.length
      = 2 * 2 :=
  no_lost_no_duplicated_command.2
    [(1, { sizeMin := AnySize, sizeMax := 0, ptr := 11, id := 1 }),
     (2, { sizeMin := 1, sizeMax := 2, ptr := 12, id := 2 })]
    [[{ size := 0, data := [], id := 1 }, { size := 3, data := [7, 8, 9], id := 1 }],
     [{ size := 1, data := [4], id := 2 }, { size := 2, data := [5, 6], id := 2 }]]
    2 2
    [Step.send { size := 0, data := [], id := 1 },
     Step.send { size := 1, data := [4], id := 2 },
     Step.update,
     Step.send { size := 2, data := [5, 6], id := 2 },
     Step.update,
     Step.send { size := 3, data := [7, 8, 9], id := 1 }]
    rfl (by decide) (by decide) (by decide)

/-- C5: unroutable drop.  For a command whose id has no entry in the registry,
`SendCommand` followed by `Update` makes no call for it (the calls are those
of the commands queued before it; none at all when the queue was empty),
returns normally, leaves the queue empty and the registry as it was. -/
theorem Update_unroutable_drop (s : CommandStream) (c : Command)
    (hnone : s.m_functionHandlers.find c.id = none) :
    (Update (SendCommand s c)).2 = (Update s).2 ∧
    (s.m_commands = [] → (Update (SendCommand s c)).2 = []) ∧
    (Update (SendCommand s c)).1.m_commands = [] ∧
    (Update (SendCommand s c)).1.m_functionHandlers = s.m_functionHandlers := by
  have hd : specDispatch s.m_functionHandlers c = none := by
    simp [specDispatch, hnone]
  have h1 : (Update (SendCommand s c)).2 = (Update s).2 := by
    simp [Update_eq, SendCommand, List.filterMap_append, hd]
  refine ⟨h1, ?_, ?_, ?_⟩
  · intro hq
    rw [h1, Update_eq, hq]
    rfl
  · rw [Update_eq]
  · rw [Update_eq]
    rfl

/-- Witness for C5: a command of id 9 sent to a stream that only knows id 1. -/
theorem Update_unroutable_drop_witness :
    (Update (SendCommand
        { m_functionHandlers := [(1, { sizeMin := AnySize, sizeMax := 0, ptr := 11, id := 1 })],
          m_commands := [] }
        { size := 2, data := [3, 4], id := 9 })).2 = [] ∧
    (Update (SendCommand
        { m_functionHandlers := [(1, { sizeMin := AnySize, sizeMax := 0, ptr := 11, id := 1 })],
          m_commands := [] }
        { size := 2, data := [3, 4], id := 9 })).1.m_commands = [] :=
  ⟨(Update_unroutable_drop
      { m_functionHandlers := [(1, { sizeMin := AnySize, sizeMax := 0, ptr := 11, id := 1 })],
        m_commands := [] }
      { size := 2, data := [3, 4], id := 9 } rfl).2.1 rfl,
   (Update_unroutable_drop
      { m_functionHandlers := [(1, { sizeMin := AnySize, sizeMax := 0, ptr := 11, id := 1 })],
        m_commands := [] }
      { size := 2, data := [3, 4], id := 9 } rfl).2.2.1⟩

/-- C6: idempotent drain.  For every stream, a second `Update` right after a
first one makes no call and leaves the stream as the first call left it: the
queue empty and the registry the one before the first call. -/
theorem Update_idempotent_drain (s : CommandStream) :
    (Update (Update s).1).2 = [] ∧
    (Update (Update s).1).1 = (Update s).1 ∧
    (Update s).1.m_commands = [] ∧
    (Update s).1.m_functionHandlers = s.m_functionHandlers := by
  refine ⟨?_, ?_, ?_, ?_⟩ <;> simp [Update_eq]

/-- C7: `AnySize` wildcard.  An entry registered with `sizeMin == AnySize` is
called by `Update` for every queued command that carries its id, whatever the
size of the command and whatever `sizeMax` is: the command contributes exactly
the call of that entry's callback on its payload. -/
theorem Update_AnySize_wildcard (s : CommandStream) (pre post : List Command) (c : Command)
    (h : HandlerFunction) (hq : s.m_commands = pre ++ c :: post)
    (hf : s.m_functionHandlers.find c.id = some h) (hmin : h.sizeMin = AnySize) :
    (Update s).2 =
      (Update { s with m_commands := pre }).2 ++ [{ ptr := h.ptr, data := c.data }] ++
        (Update { s with m_commands := post }).2 := by
  have ha : specAccepts h c := Or.inl hmin
  simp [Update_eq, hq, List.filterMap_append, specDispatch, hf, ha]

/-- Witness for C7: an entry with `sizeMin = AnySize` and `sizeMax = 0`, and a
queue holding a command of size 0 and one of size 5 for it. -/
theorem Update_AnySize_wildcard_witness :
    (Update { m_functionHandlers := [(3, { sizeMin := AnySize, sizeMax := 0, ptr := 21, id := 3 })],
              m_commands := [{ size := 0, data := [], id := 3 },
                             { size := 5, data := [1, 2, 3, 4, 5], id := 3 }] }).2
      = [{ ptr := 21, data := [] }] ++ [{ ptr := 21, data := [1, 2, 3, 4, 5] }] ++ [] :=
  Update_AnySize_wildcard
    { m_functionHandlers := [(3, { sizeMin := AnySize, sizeMax := 0, ptr := 21, id := 3 })],
      m_commands := [{ size := 0, data := [], id := 3 },
                     { size := 5, data := [1, 2, 3, 4, 5], id := 3 }] }
    [{ size := 0, data := [], id := 3 }] [] { size := 5, data := [1, 2, 3, 4, 5], id := 3 }
    { sizeMin := AnySize, sizeMax := 0, ptr := 21, id := 3 } rfl rfl rfl

/-- C8: wire layout of `SerializeCommand`.  For a command whose payload has
`size` bytes (id and size being 32-bit values), the result is a buffer of
exactly `sizeof(Id) + sizeof(Size) + size = 8 + size` bytes: the four bytes of
the id in native byte order, the four bytes of the size in native byte order,
then the payload bytes unchanged, with nothing in between. -/
theorem SerializeCommand_wire_layout (t : Target) (c : Command)
    (hlen : c.data.length = c.size) (hid : c.id < 4294967296) (hsize : c.size < 4294967296) :
    ∃ buf : SerializedCommand,
      SerializeCommand t c = some buf ∧
      buf.length = sizeofId + sizeofSize + c.size ∧
      buf.length = 8 + c.size ∧
      (∀ b ∈ buf.take 8, b < 256) ∧
      specU32At t buf 0 = c.id ∧
      specU32At t buf 4 = c.size ∧
      buf.drop 8 = c.data := by
  refine ⟨objectBytes t c.id ++ objectBytes t c.size ++ c.data, ?_, ?_, ?_, ?_, ?_, ?_, ?_⟩
  · simp only [SerializeCommand, memcpy_exact c.data c.size hlen]
  · simp only [List.length_append, objectBytes_length, hlen, sizeofId, sizeofSize]
  · simp only [List.length_append, objectBytes_length, hlen]
  · intro b hb
    have h8 : (objectBytes t c.id ++ objectBytes t c.size).length = 8 := by
      simp only [List.length_append, objectBytes_length]
    rw [List.take_left' h8] at hb
    rcases List.mem_append.mp hb with hb | hb
    · exact objectBytes_lt t _ b hb
    · exact objectBytes_lt t _ b hb
  · exact (specU32At_objectBytes t c.id c.size c.data hid hsize).1
  · exact (specU32At_objectBytes t c.id c.size c.data hid hsize).2
  · have h8 : (objectBytes t c.id ++ objectBytes t c.size).length = 8 := by
      simp only [List.length_append, objectBytes_length]
    exact List.drop_left' h8

/-- Witness for C8: `Command{id = 0x01020304, size = 3, data = [9, 8, 7]}` on a
little-endian target. -/
theorem SerializeCommand_wire_layout_witness :
    ∃ buf : SerializedCommand,
      SerializeCommand { littleEndian := true, charSigned := true }
          { size := 3, data := [9, 8, 7], id := 16909060 } = some buf ∧
      buf.length = sizeofId + sizeofSize + 3 ∧
      buf.length = 8 + 3 ∧
      (∀ b ∈ buf.take 8, b < 256) ∧
      specU32At { littleEndian := true, charSigned := true } buf 0 = 16909060 ∧
      specU32At { littleEndian := true, charSigned := true } buf 4 = 3 ∧
      buf.drop 8 = [9, 8, 7] :=
  SerializeCommand_wire_layout { littleEndian := true, charSigned := true }
    { size := 3, data := [9, 8, 7], id := 16909060 } rfl (by decide) (by decide)

/-- C9 (fails on the code): `DeserializeCommand` at the 8-byte buffer
`[0, 1, 1, 0, 0, 0, 0, 0]`.  In either byte order the 32-bit integer stored in
bytes 0..3 is `65792` and the one in bytes 4..7 is `0`, so the buffer is long
enough; the code returns a command whose id is `0`: only the byte at offset 0
is read. -/
theorem DeserializeCommand_reads_single_bytes (t : Target) :
    specU32At t [0, 1, 1, 0, 0, 0, 0, 0] 0 = 65792 ∧
    specU32At t [0, 1, 1, 0, 0, 0, 0, 0] 4 = 0 ∧
    DeserializeCommand t [0, 1, 1, 0, 0, 0, 0, 0] = some { size := 0, data := [], id := 0 } := by
  rcases t with ⟨_ | _, _ | _⟩ <;> exact ⟨rfl, rfl, rfl⟩

/-- C10: command construction copies the bytes.  For every id, size and source
buffer of at least `size` bytes, `CreateCommand` returns a command with that
id, that size and a payload of exactly `size` bytes, the first `size` bytes of
the source; its size field equals the length of its payload; and the
three-argument `SendCommand` appends exactly this command at the end of the
queue, leaving the rest of the stream as it was. -/
theorem CreateCommand_copies_bytes (s : CommandStream) (id : Id) (size : Size)
    (data : List Byte) (hsrc : size ≤ data.length) :
    ∃ c : Command,
      CreateCommand id size data = some c ∧
      c.id = id ∧ c.size = size ∧ c.data = data.take size ∧
      c.data.length = size ∧ c.size = c.data.length ∧
      SendCommandData s id size data =
        some { m_functionHandlers := s.m_functionHandlers, m_commands := s.m_commands ++ [c] } := by
  have hc : CreateCommand id size data =
      some { size := size, data := data.take size, id := id } := by
    simp only [CreateCommand, memcpy, if_pos hsrc]
  refine ⟨{ size := size, data := data.take size, id := id }, hc, rfl, rfl, rfl, ?_, ?_, ?_⟩
  · exact List.length_take_of_le hsrc
  · exact (List.length_take_of_le hsrc).symm
  · simp only [SendCommandData, hc, SendCommand]

/-- Witness for C10: two bytes copied out of a four-byte source into a stream
that already holds one command. -/
theorem CreateCommand_copies_bytes_witness :
    ∃ c : Command,
      CreateCommand 5 2 [10, 20, 30, 40] = some c ∧
      c.id = 5 ∧ c.size = 2 ∧ c.data = [10, 20] ∧
      c.data.length = 2 ∧ c.size = c.data.length ∧
      SendCommandData { m_functionHandlers := [], m_commands := [{ size := 0, data := [], id := 1 }] }
          5 2 [10, 20, 30, 40] =
        some { m_functionHandlers := [],
               m_commands := [{ size := 0, data := [], id := 1 }] ++ [c] } :=
  CreateCommand_copies_bytes
    { m_functionHandlers := [], m_commands := [{ size := 0, data := [], id := 1 }] }
    5 2 [10, 20, 30, 40] (by decide)

/-- C11 (fails as stated): one call `RegisterHandler(1, f, 5, 3)` on the empty
registry stores an entry with `sizeMin = 5`, `sizeMax = 3`, which is neither
`AnySize` nor at most `sizeMax`. -/
theorem range_invariant_not_enforced :
    ([RegisterCall.range 1 7 5 3].foldl RegisterCall.apply
        { m_functionHandlers := [], m_commands := [] }).m_functionHandlers
      = [(1, { sizeMin := 5, sizeMax := 3, ptr := 7, id := 1 })] ∧
    ¬ specRangeInvariant { sizeMin := 5, sizeMax := 3, ptr := 7, id := 1 } := by
  exact ⟨rfl, by decide⟩

/-- C11 (amended): the registry stores the ranges as the calls give them.  In
every registry reached from the empty one by `RegisterHandler` calls (any of
the three overloads) whose size ranges all satisfy `sizeMin == AnySize` or
`sizeMin <= sizeMax` (which the single-size overload always does), every
stored entry satisfies `sizeMin == AnySize` or `sizeMin <= sizeMax`. -/
theorem range_invariant_preserved (calls : List RegisterCall)
    (hcalls : ∀ call ∈ calls, call.rangeOk) :
    ∀ e ∈ (calls.foldl RegisterCall.apply
        { m_functionHandlers := [], m_commands := [] }).m_functionHandlers,
      e.2.sizeMin = AnySize ∨ e.2.sizeMin ≤ e.2.sizeMax :=
  foldl_apply_entries calls { m_functionHandlers := [], m_commands := [] } hcalls
    (fun _ he => absurd he (List.not_mem_nil _))

/-- Witness for C11 (amended): the three overloads, one call each, and a
repeated id; the entry stored for id 2 is within the invariant. -/
theorem range_invariant_preserved_witness :
    ((2, { sizeMin := 4, sizeMax := 8, ptr := 12, id := 2 }) ∈
      ([RegisterCall.size 1 11 8, RegisterCall.range 2 12 4 8,
        RegisterCall.entry { sizeMin := AnySize, sizeMax := 0, ptr := 13, id := 3 },
        RegisterCall.range 1 14 0 2].foldl RegisterCall.apply
          { m_functionHandlers := [], m_commands := [] }).m_functionHandlers) ∧
    ((4 : Size) = AnySize ∨ (4 : Size) ≤ 8) :=
  ⟨by decide,
   range_invariant_preserved
    [RegisterCall.size 1 11 8, RegisterCall.range 2 12 4 8,
     RegisterCall.entry { sizeMin := AnySize, sizeMax := 0, ptr := 13, id := 3 },
     RegisterCall.range 1 14 0 2] (by decide)
    (2, { sizeMin := 4, sizeMax := 8, ptr := 12, id := 2 }) (by decide)⟩

/-- C12 (fails on the code): on a big-endian target the scenario makes no
call, where the handler of id 1 is to be called exactly once with the payload
`[0, 1, ..., 7]`.  The serialized id `1` lies in memory as `0, 0, 0, 1` and
the size `8` as `0, 0, 0, 8`; `DeserializeCommand` takes the first byte of
each, so the command enqueued has id `0` and size `0`, for which nothing is
registered. -/
theorem scenario_big_endian_no_call :
    scenario { littleEndian := false, charSigned := true } 7
      = some ({ m_functionHandlers := [(1, { sizeMin := 8, sizeMax := 8, ptr := 7, id := 1 })],
                m_commands := [] }, []) ∧
    SerializeCommand { littleEndian := false, charSigned := true }
        { size := 8, data := [0, 1, 2, 3, 4, 5, 6, 7], id := 1 }
      = some [0, 0, 0, 1, 0, 0, 0, 8, 0, 1, 2, 3, 4, 5, 6, 7] ∧
    DeserializeCommand { littleEndian := false, charSigned := true }
        [0, 0, 0, 1, 0, 0, 0, 8, 0, 1, 2, 3, 4, 5, 6, 7]
      = some { size := 0, data := [], id := 0 } := by
  exact ⟨rfl, rfl, rfl⟩

/-- Where the low-order byte of a field is stored first (little-endian, with
either signedness of `char`) the byte that `DeserializeCommand` reads carries
the values 1 and 8 of the scenario, and the handler is called once. -/
theorem scenario_little_endian (charSigned : Bool) (f : HandlerFunction.Function) :
    scenario { littleEndian := true, charSigned := charSigned } f
      = some ({ m_functionHandlers := [(1, { sizeMin := 8, sizeMax := 8, ptr := f, id := 1 })],
                m_commands := [] },
              [{ ptr := f, data := [0, 1, 2, 3, 4, 5, 6, 7] }]) := by
  cases charSigned <;> rfl

/-- C13: single-size registration.  For an id not yet registered,
`RegisterHandler(id, callback, s)` leaves the stream in the same state as
`RegisterHandler(id, callback, s, s)`: the entry stored under `id` has
`sizeMin = sizeMax = s` and that callback (the queue is untouched).  So for
`s != AnySize` a queued command of that id leads to a call, of that callback
on its payload, exactly when its size equals `s`. -/
theorem RegisterHandler_single_size (s : CommandStream) (id : Id)
    (f : HandlerFunction.Function) (sz : Size)
    (hfree : s.m_functionHandlers.find id = none) :
    RegisterHandlerSize s id f sz = RegisterHandlerRange s id f sz sz ∧
    (RegisterHandlerSize s id f sz).m_functionHandlers.find id
      = some { sizeMin := sz, sizeMax := sz, ptr := f, id := id } ∧
    (RegisterHandlerSize s id f sz).m_commands = s.m_commands ∧
    (sz ≠ AnySize → ∀ (pre post : List Command) (c : Command), c.id = id →
      (Update { m_functionHandlers := (RegisterHandlerSize s id f sz).m_functionHandlers,
                m_commands := pre ++ c :: post }).2 =
        (Update { m_functionHandlers := (RegisterHandlerSize s id f sz).m_functionHandlers,
                  m_commands := pre }).2 ++
          (if c.size = sz then [({ ptr := f, data := c.data } : Invocation)] else []) ++
        (Update { m_functionHandlers := (RegisterHandlerSize s id f sz).m_functionHandlers,
                  m_commands := post }).2) := by
  have hfind : (RegisterHandlerSize s id f sz).m_functionHandlers.find id
      = some { sizeMin := sz, sizeMax := sz, ptr := f, id := id } :=
    HandlerMap.find_insert_self _ hfree
  refine ⟨rfl, hfind, rfl, ?_⟩
  intro hne pre post c hc
  rw [Update_split]
  congr 2
  have hfc : (RegisterHandlerSize s id f sz).m_functionHandlers.find c.id
      = some { sizeMin := sz, sizeMax := sz, ptr := f, id := id } := by
    rw [hc]; exact hfind
  unfold specDispatch
  rw [hfc]
  by_cases hsz : c.size = sz
  · have ha : specAccepts { sizeMin := sz, sizeMax := sz, ptr := f, id := id } c :=
      Or.inr ⟨Nat.le_of_eq hsz.symm, Nat.le_of_eq hsz⟩
    simp only [if_pos ha, if_pos hsz]
    rfl
  · have ha : ¬ specAccepts { sizeMin := sz, sizeMax := sz, ptr := f, id := id } c := by
      rintro (h1 | ⟨h1, h2⟩)
      · exact hne h1
      · exact hsz (Nat.le_antisymm h2 h1)
    simp only [if_neg ha, if_neg hsz]
    rfl

/-- Witness for C13: id 1 registered for the single size 8 on an empty
registry. -/
theorem RegisterHandler_single_size_witness :
    RegisterHandlerSize { m_functionHandlers := [], m_commands := [] } 1 7 8
      = RegisterHandlerRange { m_functionHandlers := [], m_commands := [] } 1 7 8 8 ∧
    (RegisterHandlerSize { m_functionHandlers := [], m_commands := [] } 1 7 8).m_functionHandlers.find 1
      = some { sizeMin := 8, sizeMax := 8, ptr := 7, id := 1 } :=
  ⟨(RegisterHandler_single_size { m_functionHandlers := [], m_commands := [] } 1 7 8 rfl).1,
   (RegisterHandler_single_size { m_functionHandlers := [], m_commands := [] } 1 7 8 rfl).2.1⟩

/-- C14: duplicate registration keeps the first.  When the registry already
holds an entry for an id, a further `RegisterHandler` call for that id, through
any overload and with any callback and size range, leaves the stream unchanged,
so `Update` behaves as before and the id still maps to the first entry; and a
registration never changes what any other id maps to. -/
theorem RegisterHandler_duplicate_keeps_first :
    (∀ (s : CommandStream) (func first : HandlerFunction),
      s.m_functionHandlers.find func.id = some first →
      RegisterHandler s func = s ∧
      Update (RegisterHandler s func) = Update s ∧
      (RegisterHandler s func).m_functionHandlers.find func.id = some first) ∧
    (∀ (s : CommandStream) (id : Id) (f : HandlerFunction.Function) (sizeMin sizeMax : Size)
        (first : HandlerFunction),
      s.m_functionHandlers.find id = some first →
      RegisterHandlerRange s id f sizeMin sizeMax = s ∧ RegisterHandlerSize s id f sizeMin = s) ∧
    (∀ (s : CommandStream) (func : HandlerFunction) (k : Id), k ≠ func.id →
      (RegisterHandler s func).m_functionHandlers.find k = s.m_functionHandlers.find k) := by
  refine ⟨?_, ?_, ?_⟩
  · intro s func first hf
    have h := RegisterHandler_of_find hf
    refine ⟨h, by rw [h], by rw [h]; exact hf⟩
  · intro s id f sizeMin sizeMax first hf
    constructor
    · show RegisterHandler s { sizeMin := sizeMin, sizeMax := sizeMax, ptr := f, id := id } = s
      exact RegisterHandler_of_find hf
    · show RegisterHandler s { sizeMin := sizeMin, sizeMax := sizeMin, ptr := f, id := id } = s
      exact RegisterHandler_of_find hf
  · intro s func k hk
    exact HandlerMap.find_insert_ne _ _ hk

/-- Witness for C14: id 1 is registered for sizes 4 to 8 with callback 7; a
second registration of id 1 (any size, callback 9) changes nothing, and
registering id 2 leaves id 1 as it is. -/
theorem RegisterHandler_duplicate_keeps_first_witness :
    RegisterHandler
        { m_functionHandlers := [(1, { sizeMin := 4, sizeMax := 8, ptr := 7, id := 1 })],
          m_commands := [{ size := 5, data := [1, 2, 3, 4, 5], id := 1 }] }
        { sizeMin := AnySize, sizeMax := 0, ptr := 9, id := 1 }
      = { m_functionHandlers := [(1, { sizeMin := 4, sizeMax := 8, ptr := 7, id := 1 })],
          m_commands := [{ size := 5, data := [1, 2, 3, 4, 5], id := 1 }] } ∧
    (RegisterHandler
        { m_functionHandlers := [(1, { sizeMin := 4, sizeMax := 8, ptr := 7, id := 1 })],
          m_commands := [] }
        { sizeMin := 0, sizeMax := 0, ptr := 9, id := 2 }).m_functionHandlers.find 1
      = some { sizeMin := 4, sizeMax := 8, ptr := 7, id := 1 } :=
  ⟨(RegisterHandler_duplicate_keeps_first.1
      { m_functionHandlers := [(1, { sizeMin := 4, sizeMax := 8, ptr := 7, id := 1 })],
        m_commands := [{ size := 5, data := [1, 2, 3, 4, 5], id := 1 }] }
      { sizeMin := AnySize, sizeMax := 0, ptr := 9, id := 1 }
      { sizeMin := 4, sizeMax := 8, ptr := 7, id := 1 } rfl).1,
   RegisterHandler_duplicate_keeps_first.2.2
      { m_functionHandlers := [(1, { sizeMin := 4, sizeMax := 8, ptr := 7, id := 1 })],
        m_commands := [] }
      { sizeMin := 0, sizeMax := 0, ptr := 9, id := 2 } 1 (by decide)⟩

/-- C15 (fails on the code): the template `CreateCommand` for an 8-byte
integer type, id 1, a value whose bytes are `16, 32, 48, 64, 253, 127, 0, 0`
(a writable address, so that the store of line 130 is defined) and a block from
`malloc` that holds eight bytes `170`.  The command returned has id 1 and
size 8, but its payload is the block as `malloc` left it, not the bytes of
the value; whatever the value, the payload is the untouched block. -/
theorem CreateCommandTyped_payload_not_written :
    CreateCommandTyped 1 8 [16, 32, 48, 64, 253, 127, 0, 0]
        [170, 170, 170, 170, 170, 170, 170, 170] true
      = some { size := 8, data := [170, 170, 170, 170, 170, 170, 170, 170], id := 1 } ∧
    (∀ (id : Id) (sizeofT : Nat) (data block : List Byte) (c : Command),
      CreateCommandTyped id sizeofT data block true = some c → c.data = block) ∧
    (∀ (id : Id) (sizeofT : Nat) (data block : List Byte),
      CreateCommandTyped id sizeofT data block false = none) := by
  refine ⟨rfl, ?_, ?_⟩
  · intro id sizeofT data block c h
    simp only [CreateCommandTyped, if_true, Option.some.injEq] at h
    rw [← h]
  · intro id sizeofT data block
    rfl

/-- C16 (fails as stated): the range `id < 128`, `size < 128` is not exactly
the range in which the one-byte read is enough.  On a little-endian target
with unsigned `char`, `Command{id = 255, size = 2, data = [9, 8]}` comes back
unchanged; with signed `char`, so does the command of id `0xFFFFFF80`
(`4294967168`), whose first byte sign-extends to the id itself. -/
theorem round_trip_outside_small_range :
    ¬ ((255 : Nat) < 128) ∧ ¬ ((4294967168 : Nat) < 128) ∧
    (SerializeCommand { littleEndian := true, charSigned := false }
        { size := 2, data := [9, 8], id := 255 }).bind
        (DeserializeCommand { littleEndian := true, charSigned := false })
      = some { size := 2, data := [9, 8], id := 255 } ∧
    (SerializeCommand { littleEndian := true, charSigned := true }
        { size := 2, data := [9, 8], id := 4294967168 }).bind
        (DeserializeCommand { littleEndian := true, charSigned := true })
      = some { size := 2, data := [9, 8], id := 4294967168 } := by
  exact ⟨by decide, by decide, rfl, rfl⟩

/-- C16 (amended): restricted round trip, as a sufficient range.  On a
little-endian target (with either signedness of `char`), for every command
with `id < 128`, `size < 128` and a payload of `size` bytes, `SerializeCommand`
succeeds and `DeserializeCommand` of its result succeeds and returns a command
with the same id, the same size and the same payload bytes: the first byte of
each 4-byte field is enough in this range. -/
theorem round_trip_small_fields (charSigned : Bool) (c : Command)
    (hid : c.id < 128) (hsize : c.size < 128) (hlen : c.data.length = c.size) :
    (SerializeCommand { littleEndian := true, charSigned := charSigned } c).bind
        (DeserializeCommand { littleEndian := true, charSigned := charSigned })
      = some c := by
  obtain ⟨size, data, id⟩ := c
  have hs : SerializeCommand { littleEndian := true, charSigned := charSigned }
      { size := size, data := data, id := id } =
      some ([id, 0, 0, 0] ++ [size, 0, 0, 0] ++ data) := by
    simp only [SerializeCommand, memcpy_exact data size hlen,
      objectBytes_small charSigned id hid, objectBytes_small charSigned size hsize]
  rw [hs, Option.some_bind]
  simp only [DeserializeCommand, sizeofId, sizeofSize, List.cons_append, List.nil_append,
    List.getElem?_cons_zero, List.getElem?_cons_succ, List.drop_succ_cons, List.drop_zero,
    charToU32_small _ id hid, charToU32_small _ size hsize, memcpy_exact data size hlen]

/-- Witness for C16 (amended): `Command{id = 127, size = 3, data = [200, 0, 255]}` on a
little-endian target with signed `char`. -/
theorem round_trip_small_fields_witness :
    (SerializeCommand { littleEndian := true, charSigned := true }
        { size := 3, data := [200, 0, 255], id := 127 }).bind
        (DeserializeCommand { littleEndian := true, charSigned := true })
      = some { size := 3, data := [200, 0, 255], id := 127 } :=
  round_trip_small_fields true { size := 3, data := [200, 0, 255], id := 127 }
    (by decide) (by decide) rfl

/-- C17: `Update` does not modify the registry.  For every stream, whatever
its queue holds (commands with unregistered ids included), the registry after
`Update` is the registry before, entry for entry; each pass of the loop body
leaves it as it was, `operator[]` being applied only under the `find` test. -/
theorem Update_keeps_registry :
    (∀ s : CommandStream, (Update s).1.m_functionHandlers = s.m_functionHandlers) ∧
    (∀ (handlers : HandlerMap) (cs : List Command), (updateLoop handlers cs).1 = handlers) ∧
    (∀ (handlers : HandlerMap) (c : Command), (updateBody handlers c).1 = handlers) := by
  refine ⟨?_, ?_, ?_⟩
  · intro s
    rw [Update_eq]
  · intro handlers cs
    rw [updateLoop_eq]
  · intro handlers c
    rw [updateBody_eq]

/-- C18: an inverted range is dead.  `RegisterHandler` stores a range with
`sizeMin != AnySize` and `sizeMin > sizeMax` as given (for an id not yet
registered), with no error; and a queued command whose id maps to an entry
with such a range leads to no call in `Update`, whatever its size. -/
theorem inverted_range_is_dead :
    (∀ (s : CommandStream) (id : Id) (f : HandlerFunction.Function) (sizeMin sizeMax : Size),
      s.m_functionHandlers.find id = none → sizeMin ≠ AnySize → sizeMin > sizeMax →
      (RegisterHandlerRange s id f sizeMin sizeMax).m_functionHandlers.find id
        = some { sizeMin := sizeMin, sizeMax := sizeMax, ptr := f, id := id }) ∧
    (∀ (s : CommandStream) (pre post : List Command) (c : Command) (h : HandlerFunction),
      s.m_commands = pre ++ c :: post → s.m_functionHandlers.find c.id = some h →
      h.sizeMin ≠ AnySize → h.sizeMin > h.sizeMax →
      (Update s).2 = (Update { s with m_commands := pre }).2 ++
        (Update { s with m_commands := post }).2) := by
  constructor
  · intro s id f sizeMin sizeMax hfree _ _
    exact HandlerMap.find_insert_self _ hfree
  · intro s pre post c h hq hf hne hinv
    have ha : ¬ specAccepts h c := by
      rintro (h1 | ⟨h1, h2⟩)
      · exact hne h1
      · exact Nat.lt_irrefl _ (Nat.lt_of_le_of_lt (Nat.le_trans h1 h2) hinv)
    have hd : specDispatch s.m_functionHandlers c = none := by
      simp [specDispatch, hf, ha]
    obtain ⟨handlers, q⟩ := s
    simp only at hq hd
    subst hq
    rw [Update_split, hd]
    simp

/-- Witness for C18: `RegisterHandler(1, f, 5, 3)` on an empty registry, then
commands of id 1 with sizes 3, 4 and 5 in the queue. -/
theorem inverted_range_is_dead_witness :
    (RegisterHandlerRange { m_functionHandlers := [], m_commands := [] } 1 7 5 3).m_functionHandlers.find 1
      = some { sizeMin := 5, sizeMax := 3, ptr := 7, id := 1 } ∧
    (Update { m_functionHandlers := [(1, { sizeMin := 5, sizeMax := 3, ptr := 7, id := 1 })],
              m_commands := [{ size := 3, data := [1, 2, 3], id := 1 },
                             { size := 4, data := [1, 2, 3, 4], id := 1 },
                             { size := 5, data := [1, 2, 3, 4, 5], id := 1 }] }).2
      = [] ++ [] :=
  ⟨inverted_range_is_dead.1 { m_functionHandlers := [], m_commands := [] } 1 7 5 3
      rfl (by decide) (by decide),
   inverted_range_is_dead.2
      { m_functionHandlers := [(1, { sizeMin := 5, sizeMax := 3, ptr := 7, id := 1 })],
        m_commands := [{ size := 3, data := [1, 2, 3], id := 1 },
                       { size := 4, data := [1, 2, 3, 4], id := 1 },
                       { size := 5, data := [1, 2, 3, 4, 5], id := 1 }] }
      [{ size := 3, data := [1, 2, 3], id := 1 }]
      [{ size := 5, data := [1, 2, 3, 4, 5], id := 1 }]
      { size := 4, data := [1, 2, 3, 4], id := 1 }
      { sizeMin := 5, sizeMax := 3, ptr := 7, id := 1 } rfl rfl (by decide) (by decide)⟩

end CommandStream
end Imperative
